import Mathlib

/-!
# Verification of the Raydium SOL-USDC liquidity-management bot

Shallow embedding of the decision/allocation core of the bot:

* `src/src/constants/index.ts` — `CONSTANTS.POSITION` thresholds, and (in the
  bundled helpers section) `calculateOptimalAmounts`, `retry`;
* `src/src/services/raydium.ts` — `RaydiumService.getOptimalAmounts`,
  `calculateTickIndexes`, `getPositions`, `isPositionInRange`;
* `src/src/index.ts` (bundled blockchain section) — `sendTransactionWithRetry`;
* the LiquidityManager orchestrator (`managePositions`): the close loop over
  positions and the reallocation (open-position) step.

JavaScript floating-point numbers are abstracted as real numbers `ℝ` where the
code does square roots or division, and integer tick arithmetic as `ℤ`.
Network effects (RPC queries, transaction submission) are modelled by passing
each fallible collaborator's outcome explicitly as an `Except` value.
-/

namespace LiquidityBot

/-! ## Constants — `CONSTANTS.POSITION` (src/src/constants/index.ts) -/

/-- Constant `CONSTANTS.POSITION.MIN_SOL_AMOUNT = 0.01` — minimum SOL (base) leg. -/
def MIN_SOL_AMOUNT : ℝ := 0.01

/-- Constant `CONSTANTS.POSITION.MIN_USDC_AMOUNT = 5` — minimum USDC (quote) leg. -/
def MIN_USDC_AMOUNT : ℝ := 5

/-! ## Tick alignment — `RaydiumService.calculateTickIndexes`
(src/src/services/raydium.ts lines 164-200)

The SDK call `AmmV3.priceToTickIndex` (external dependency, not in this
repository) turns each bound price into an integer tick; those two integers are
the inputs here.  The code then aligns them to the tick spacing:

```ts
lowerTickIndex = Math.floor(lowerTickIndex / tickSpacing) * tickSpacing;
upperTickIndex = Math.ceil(upperTickIndex / tickSpacing) * tickSpacing;
```

For an integer `t` and a positive integer `s`, `Math.floor(t / s)` is floor
division, which is `Int` division `t / s` (E-division coincides with floor
division for a positive divisor), and `Math.ceil(t / s) = -((-t) / s)`. -/

/-- Alignment of a lower tick: `Math.floor(t / s) * s`. -/
def alignLowerTickIndex (tickIndex tickSpacing : ℤ) : ℤ :=
  tickIndex / tickSpacing * tickSpacing

/-- Alignment of an upper tick: `Math.ceil(t / s) * s`. -/
def alignUpperTickIndex (tickIndex tickSpacing : ℤ) : ℤ :=
  -(-tickIndex / tickSpacing) * tickSpacing

/-- Embedding of `RaydiumService.calculateTickIndexes`, after the SDK's price→tick lookup:
the pair of spacing-aligned tick indexes. -/
def calculateTickIndexes (lowerTickIndex upperTickIndex tickSpacing : ℤ) : ℤ × ℤ :=
  (alignLowerTickIndex lowerTickIndex tickSpacing,
   alignUpperTickIndex upperTickIndex tickSpacing)

/-! Helper facts about floor alignment. -/

theorem alignLower_le (t s : ℤ) (hs : 0 < s) : alignLowerTickIndex t s ≤ t := by
  have h := Int.ediv_add_emod t s
  have hm : 0 ≤ t % s := Int.emod_nonneg t (ne_of_gt hs)
  unfold alignLowerTickIndex
  nlinarith [h, hm]

theorem alignLower_dvd (t s : ℤ) : s ∣ alignLowerTickIndex t s :=
  Dvd.intro (t / s) (mul_comm s (t / s))

theorem alignLower_greatest (t s m : ℤ) (hs : 0 < s) (hm : s ∣ m) (hle : m ≤ t) :
    m ≤ alignLowerTickIndex t s := by
  obtain ⟨k, rfl⟩ := hm
  have hk : k ≤ t / s := by
    rw [Int.le_ediv_iff_mul_le hs]
    calc k * s = s * k := mul_comm k s
    _ ≤ t := hle
  unfold alignLowerTickIndex
  calc s * k = k * s := mul_comm s k
  _ ≤ t / s * s := by
        exact mul_le_mul_of_nonneg_right hk (le_of_lt hs)

theorem alignLower_aligned (t s : ℤ) (h : s ∣ t) : alignLowerTickIndex t s = t :=
  Int.ediv_mul_cancel h

theorem alignUpper_ge (t s : ℤ) (hs : 0 < s) : t ≤ alignUpperTickIndex t s := by
  have h := alignLower_le (-t) s hs
  unfold alignLowerTickIndex at h
  unfold alignUpperTickIndex
  linarith

theorem alignUpper_dvd (t s : ℤ) : s ∣ alignUpperTickIndex t s :=
  Dvd.intro (-(-t / s)) (mul_comm s (-(-t / s)))

theorem alignUpper_least (t s m : ℤ) (hs : 0 < s) (hm : s ∣ m) (hle : t ≤ m) :
    alignUpperTickIndex t s ≤ m := by
  obtain ⟨k, rfl⟩ := hm
  have h := alignLower_greatest (-t) s (s * (-k)) hs ⟨-k, rfl⟩ (by linarith)
  unfold alignLowerTickIndex at h
  unfold alignUpperTickIndex
  nlinarith [h]

theorem alignUpper_aligned (t s : ℤ) (h : s ∣ t) : alignUpperTickIndex t s = t := by
  obtain ⟨k, rfl⟩ := h
  have h2 : -(s * k) / s * s = -(s * k) := Int.ediv_mul_cancel ⟨-k, by ring⟩
  unfold alignUpperTickIndex
  nlinarith [h2]

/-- C6: For every pair of raw tick indexes and every positive `tickSpacing`,
`calculateTickIndexes` rounds the lower tick down to the greatest multiple of
`tickSpacing` that is `≤` it, rounds the upper tick up to the least multiple
that is `≥` it (so the range is only ever widened), and a tick already aligned
to `tickSpacing` is returned unchanged in both directions. -/
theorem calculateTickIndexes_rounding (lowerTickIndex upperTickIndex tickSpacing : ℤ)
    (hs : 0 < tickSpacing) :
    (tickSpacing ∣ (calculateTickIndexes lowerTickIndex upperTickIndex tickSpacing).1 ∧
      (calculateTickIndexes lowerTickIndex upperTickIndex tickSpacing).1 ≤ lowerTickIndex ∧
      (∀ m : ℤ, tickSpacing ∣ m → m ≤ lowerTickIndex →
        m ≤ (calculateTickIndexes lowerTickIndex upperTickIndex tickSpacing).1)) ∧
    (tickSpacing ∣ (calculateTickIndexes lowerTickIndex upperTickIndex tickSpacing).2 ∧
      upperTickIndex ≤ (calculateTickIndexes lowerTickIndex upperTickIndex tickSpacing).2 ∧
      (∀ m : ℤ, tickSpacing ∣ m → upperTickIndex ≤ m →
        (calculateTickIndexes lowerTickIndex upperTickIndex tickSpacing).2 ≤ m)) ∧
    (tickSpacing ∣ lowerTickIndex →
      (calculateTickIndexes lowerTickIndex upperTickIndex tickSpacing).1 = lowerTickIndex) ∧
    (tickSpacing ∣ upperTickIndex →
      (calculateTickIndexes lowerTickIndex upperTickIndex tickSpacing).2 = upperTickIndex) := by
  refine ⟨⟨alignLower_dvd _ _, alignLower_le _ _ hs, ?_⟩,
    ⟨alignUpper_dvd _ _, alignUpper_ge _ _ hs, ?_⟩,
    fun h => alignLower_aligned _ _ h, fun h => alignUpper_aligned _ _ h⟩
  · exact fun m hm hle => alignLower_greatest _ _ m hs hm hle
  · exact fun m hm hle => alignUpper_least _ _ m hs hm hle

/-- C6 witness: concrete evaluation at tick spacing 10 — lower tick `-7`
rounds down to `-10`, upper tick `23` rounds up to `30`, and the aligned ticks
`-40` / `40` are unchanged. -/
theorem calculateTickIndexes_rounding_witness :
    calculateTickIndexes (-7) 23 10 = (-10, 30) ∧
    (10:ℤ) ∣ (calculateTickIndexes (-7) 23 10).1 ∧
    (calculateTickIndexes (-7) 23 10).1 ≤ -7 ∧
    (23:ℤ) ≤ (calculateTickIndexes (-7) 23 10).2 ∧
    (calculateTickIndexes (-40) 40 10).1 = -40 ∧
    (calculateTickIndexes (-40) 40 10).2 = 40 := by
  have h := calculateTickIndexes_rounding (-7) 23 10 (by decide)
  have h2 := calculateTickIndexes_rounding (-40) 40 10 (by decide)
  exact ⟨by decide, h.1.1, h.1.2.1, h.2.1.2.1,
    h2.2.2.1 (by decide), h2.2.2.2 (by decide)⟩

/-! ## Bounded-retry submission — `sendTransactionWithRetry`
(src/src/index.ts, bundled blockchain section, lines 166-210) and the helper
`retry` (src/src/constants/index.ts, bundled helpers section, lines 269-298).

Both share the same loop:

```ts
let attempts = 0; let lastError = null;
while (attempts < retries) {
  try { ...one attempt... ; return result; }
  catch (error) {
    attempts++; lastError = error;
    if (attempts >= retries) break;            // helper: break then throw
    await sleep(baseDelay * Math.pow(2, attempts));
  }
}
throw lastError;   // blockchain version: new Error(...lastError.message)
```

The outcome of attempt number `i` (0-based call index) is supplied by an
explicit oracle `attemptOutcome : ℕ → Except E A`.  The trace records the
result (`Except.error lastError` on exhaustion, where `none` can only occur
for `retries = 0`), the number of attempts actually made, and the list of
back-off sleep durations in order. -/

/-- Observable trace of one retry-loop run. -/
structure RetryTrace (E A : Type) where
  result : Except (Option E) A
  calls : ℕ
  sleeps : List ℕ

/-- The shared retry loop.  `remaining = retries - attempts` is the loop fuel,
`attempts` the 0-based index of the next call, `lastError` the last caught
error.  Mirrors the `while (attempts < retries)` loop above: the sleep after a
failed call number `i` is `baseDelay * 2 ^ (i + 1)` (the code increments
`attempts` before computing the delay), and no sleep follows the last
failure. -/
def retryGo (attemptOutcome : ℕ → Except E A) (baseDelay : ℕ) :
    (remaining attempts : ℕ) → (lastError : Option E) → RetryTrace E A
  | 0, _, lastError => ⟨Except.error lastError, 0, []⟩
  | remaining + 1, attempts, _ =>
    match attemptOutcome attempts with
    | Except.ok a => ⟨Except.ok a, 1, []⟩
    | Except.error e =>
      if remaining = 0 then ⟨Except.error (some e), 1, []⟩
      else
        let rest := retryGo attemptOutcome baseDelay remaining (attempts + 1) (some e)
        ⟨rest.result, rest.calls + 1, baseDelay * 2 ^ (attempts + 1) :: rest.sleeps⟩

/-- Embedding of `retry` (helpers): generic retry with caller-supplied base delay
(default 1000 ms in the source). -/
def retry (attemptOutcome : ℕ → Except E A) (retries baseDelay : ℕ) : RetryTrace E A :=
  retryGo attemptOutcome baseDelay retries 0 none

/-- Embedding of `sendTransactionWithRetry` (blockchain): same loop with the base delay
fixed at 1000 ms (`Math.pow(2, attempts) * 1000`); each attempt re-fetches a
fresh blockhash before submitting, so `attemptOutcome` is the combined outcome
of one fresh-metadata build-and-submit. -/
def sendTransactionWithRetry (attemptOutcome : ℕ → Except E A) (retries : ℕ) :
    RetryTrace E A :=
  retryGo attemptOutcome 1000 retries 0 none

/-- One unfolding of the loop in the failed-attempt, attempts-remaining case:
after a failed call number `i`, when the loop is not exhausted it sleeps
`baseDelay * 2 ^ (i + 1)` and continues with one unit of fuel fewer. -/
theorem retryGo_step {E A : Type} (attemptOutcome : ℕ → Except E A)
    (baseDelay i : ℕ) (lastError : Option E) (e : E)
    (h : attemptOutcome i = Except.error e) :
    ∀ r, r ≠ 0 → retryGo attemptOutcome baseDelay (r + 1) i lastError =
      ⟨(retryGo attemptOutcome baseDelay r (i + 1) (some e)).result,
       (retryGo attemptOutcome baseDelay r (i + 1) (some e)).calls + 1,
       baseDelay * 2 ^ (i + 1) ::
         (retryGo attemptOutcome baseDelay r (i + 1) (some e)).sleeps⟩ := by
  intro r hr
  obtain ⟨t, rfl⟩ : ∃ t, r = t + 1 := ⟨r - 1, by omega⟩
  cases hfi : attemptOutcome (i + 1) <;> simp [retryGo, h, hfi]

/-- Loop invariant for the all-attempts-fail case, generalized over the start
index and fuel: with `r + 1` attempts remaining starting at call index `i`, if
every one of those calls fails, the loop makes exactly `r + 1` calls, sleeps
`baseDelay * 2 ^ k` for `k = i+1, …, i+r` between consecutive failures, and
ends with the error of call `i + r`. -/
theorem retryGo_all_fail {E A : Type} (attemptOutcome : ℕ → Except E A)
    (errs : ℕ → E) (baseDelay : ℕ) :
    ∀ r i lastError, (∀ k, k < r + 1 → attemptOutcome (i + k) = Except.error (errs (i + k))) →
      retryGo attemptOutcome baseDelay (r + 1) i lastError =
        ⟨Except.error (some (errs (i + r))), r + 1,
          (List.range' (i + 1) r).map (fun k => baseDelay * 2 ^ k)⟩ := by
  intro r
  induction r with
  | zero =>
    intro i lastError hfail
    have h0 : attemptOutcome i = Except.error (errs i) := by
      have := hfail 0 (by omega)
      simpa using this
    simp [retryGo, h0]
  | succ r ih =>
    intro i lastError hfail
    have h0 : attemptOutcome i = Except.error (errs i) := by
      have := hfail 0 (by omega)
      simpa using this
    have hrest := ih (i + 1) (some (errs i)) (by
      intro k hk
      have := hfail (k + 1) (by omega)
      have harith : i + (k + 1) = i + 1 + k := by omega
      rw [harith] at this
      exact this)
    have harith2 : i + 1 + r = i + (r + 1) := by omega
    rw [harith2] at hrest
    rw [retryGo_step attemptOutcome baseDelay i lastError (errs i) h0 (r + 1) (by omega),
      hrest]
    have hrange : List.range' (i + 1) (r + 1) = (i + 1) :: List.range' (i + 2) r := by
      simp [List.range'_succ]
    rw [hrange]
    simp

/-- C2: for every `maxAttempts ≥ 1`, when every attempt fails, both
`sendTransactionWithRetry` and the helper `retry` make exactly `maxAttempts`
attempts, sleep `baseDelay * 2 ^ attemptNumber` (attempt numbering starting
at 1) between a failed attempt and the next — i.e. the sleeps are
`baseDelay * 2^1, …, baseDelay * 2^(maxAttempts-1)` — and after the final
failure raise an error carrying the last observed error (`errs (maxAttempts -
1)`) with no further sleep. -/
theorem retry_exhaustion {E A : Type} (attemptOutcome : ℕ → Except E A)
    (errs : ℕ → E) (maxAttempts baseDelay : ℕ)
    (hpos : 1 ≤ maxAttempts)
    (hfail : ∀ k, k < maxAttempts → attemptOutcome k = Except.error (errs k)) :
    retry attemptOutcome maxAttempts baseDelay =
      ⟨Except.error (some (errs (maxAttempts - 1))), maxAttempts,
        (List.range' 1 (maxAttempts - 1)).map (fun k => baseDelay * 2 ^ k)⟩ ∧
    sendTransactionWithRetry attemptOutcome maxAttempts =
      ⟨Except.error (some (errs (maxAttempts - 1))), maxAttempts,
        (List.range' 1 (maxAttempts - 1)).map (fun k => 1000 * 2 ^ k)⟩ := by
  obtain ⟨r, rfl⟩ : ∃ r, maxAttempts = r + 1 := ⟨maxAttempts - 1, by omega⟩
  have h := retryGo_all_fail attemptOutcome errs baseDelay r 0 none (by
    intro k hk
    simpa using hfail k (by omega))
  have h2 := retryGo_all_fail attemptOutcome errs 1000 r 0 none (by
    intro k hk
    simpa using hfail k (by omega))
  constructor
  · simpa [retry] using h
  · simpa [sendTransactionWithRetry] using h2

/-- C2 witness: three attempts that all fail with error codes 10, 11, 12 make
exactly 3 calls, sleep 2000 ms then 4000 ms, and end with error 12 (the last
observed error). -/
theorem retry_exhaustion_witness :
    retry (fun i => (Except.error (10 + i) : Except ℕ Unit)) 3 1000 =
      ⟨Except.error (some 12), 3, [2000, 4000]⟩ ∧
    sendTransactionWithRetry (fun i => (Except.error (10 + i) : Except ℕ Unit)) 3 =
      ⟨Except.error (some 12), 3, [2000, 4000]⟩ := by
  have h := retry_exhaustion (fun i => (Except.error (10 + i) : Except ℕ Unit))
    (fun i => 10 + i) 3 1000 (by omega) (fun k _ => rfl)
  refine ⟨?_, ?_⟩
  · rw [h.1]
    rfl
  · rw [h.2]
    rfl

/-! ## Allocation — `RaydiumService.getOptimalAmounts`
(src/src/services/raydium.ts lines 388-418) and `calculateOptimalAmounts`
(src/src/constants/index.ts, bundled helpers section, lines 201-251).

`getOptimalAmounts` reads the current price from the pool via
`getCurrentPrice`; here that price is an explicit argument.  The result pair is
`(solAmount, usdcAmount)`: SOL is the base asset, USDC the quote asset. -/

/-- Embedding of `RaydiumService.getOptimalAmounts`: the branch on the current price
against the range, with the in-range split by
`weight = (√upper − √current) / (√upper − √lower)`.  No dust thresholds and no
range validation are applied by this function. -/
noncomputable def getOptimalAmounts (lowerPrice upperPrice currentPrice totalValue : ℝ) :
    ℝ × ℝ :=
  let sqrtPriceLower := Real.sqrt lowerPrice
  let sqrtPriceUpper := Real.sqrt upperPrice
  let sqrtPriceCurrent := Real.sqrt currentPrice
  if currentPrice ≤ lowerPrice then
    (0, totalValue)
  else if currentPrice ≥ upperPrice then
    (totalValue / currentPrice, 0)
  else
    let weight := (sqrtPriceUpper - sqrtPriceCurrent) / (sqrtPriceUpper - sqrtPriceLower)
    ((totalValue / currentPrice) * (1 - weight), totalValue * weight)

/-- The branch part of `calculateOptimalAmounts` (helpers, lines 212-228),
before the minimum-threshold post-processing: the in-range split uses
`positionInRange = (√current − √lower) / (√upper − √lower)` as the quote
weight. -/
noncomputable def calculateOptimalAmountsRaw
    (lowerPrice upperPrice currentPrice totalValueUsdc : ℝ) : ℝ × ℝ :=
  let sqrtPrice := Real.sqrt currentPrice
  let sqrtLowerPrice := Real.sqrt lowerPrice
  let sqrtUpperPrice := Real.sqrt upperPrice
  if currentPrice ≤ lowerPrice then
    (0, totalValueUsdc)
  else if currentPrice ≥ upperPrice then
    (totalValueUsdc / currentPrice, 0)
  else
    let positionInRange := (sqrtPrice - sqrtLowerPrice) / (sqrtUpperPrice - sqrtLowerPrice)
    ((totalValueUsdc / currentPrice) * (1 - positionInRange),
      totalValueUsdc * positionInRange)

/-- The minimum-threshold post-processing of `calculateOptimalAmounts`
(helpers, lines 230-239), applied in source order:

```ts
if (solAmount < CONSTANTS.POSITION.MIN_SOL_AMOUNT) {
  solAmount = 0; usdcAmount = totalValueUsdc;
}
if (usdcAmount < CONSTANTS.POSITION.MIN_USDC_AMOUNT) {
  usdcAmount = 0; solAmount = totalValueUsdc / currentPrice;
}
```

The second `if` reads the `usdcAmount` already updated by the first. -/
noncomputable def applyMinimumThresholds (currentPrice totalValueUsdc : ℝ)
    (amounts : ℝ × ℝ) : ℝ × ℝ :=
  let afterSolRule := if amounts.1 < MIN_SOL_AMOUNT then (0, totalValueUsdc) else amounts
  if afterSolRule.2 < MIN_USDC_AMOUNT then (totalValueUsdc / currentPrice, 0)
  else afterSolRule

/-- Embedding of `calculateOptimalAmounts` (helpers, lines 201-251): the branch split
followed by the minimum-threshold post-processing. -/
noncomputable def calculateOptimalAmounts
    (lowerPrice upperPrice currentPrice totalValueUsdc : ℝ) : ℝ × ℝ :=
  applyMinimumThresholds currentPrice totalValueUsdc
    (calculateOptimalAmountsRaw lowerPrice upperPrice currentPrice totalValueUsdc)

/-- Error taxonomy of the spec's `AllocationEngine` contract. -/
inductive AllocError where
  | invalidRange
deriving DecidableEq

/-- Function `getOptimalAmounts` viewed through the fallible interface the spec
assigns to `computeOptimalAmounts`.  The source body contains no `throw` and
no operation that can throw (`Math.sqrt` and `/` never throw in JavaScript),
so it always returns normally. -/
noncomputable def getOptimalAmountsE (lowerPrice upperPrice currentPrice totalValue : ℝ) :
    Except AllocError (ℝ × ℝ) :=
  Except.ok (getOptimalAmounts lowerPrice upperPrice currentPrice totalValue)

/-- Function `calculateOptimalAmounts` viewed through the fallible interface; its body
likewise contains no `throw`. -/
noncomputable def calculateOptimalAmountsE
    (lowerPrice upperPrice currentPrice totalValueUsdc : ℝ) :
    Except AllocError (ℝ × ℝ) :=
  Except.ok (calculateOptimalAmounts lowerPrice upperPrice currentPrice totalValueUsdc)

/-- Modelled from the spec: the §4.2 reference allocation formula, with
`s = √currentPrice`, `sl = √lowerPrice`, `su = √upperPrice` and
`weight = (su − s) / (su − sl)`; stated for comparison with the two
implementations. -/
noncomputable def specOptimalAmounts (lowerPrice upperPrice currentPrice totalValue : ℝ) :
    ℝ × ℝ :=
  if currentPrice ≤ lowerPrice then
    (0, totalValue)
  else if currentPrice ≥ upperPrice then
    (totalValue / currentPrice, 0)
  else
    let weight := (Real.sqrt upperPrice - Real.sqrt currentPrice) /
      (Real.sqrt upperPrice - Real.sqrt lowerPrice)
    ((totalValue / currentPrice) * (1 - weight), totalValue * weight)

/-! Concrete square-root values used when evaluating the allocation at
perfect-square prices. -/

theorem sqrt_four : Real.sqrt 4 = 2 := by
  rw [show (4:ℝ) = 2^2 by norm_num, Real.sqrt_sq (by norm_num)]

theorem sqrt_sixteen : Real.sqrt 16 = 4 := by
  rw [show (16:ℝ) = 4^2 by norm_num, Real.sqrt_sq (by norm_num)]

/-- C3 counterexample: at `(lowerPrice, upperPrice, currentPrice, totalValue)
= (1, 16, 4, 3)` the pre-dust allocation of `calculateOptimalAmounts` is
`(1/2, 1)`, while the spec's reference formula gives `(1/4, 2)`: the helper
uses the complement weight `(√c − √l)/(√u − √l)` for the quote leg. -/
theorem calculateOptimalAmountsRaw_deviates_from_reference :
    calculateOptimalAmountsRaw 1 16 4 3 = (1/2, 1) ∧
    specOptimalAmounts 1 16 4 3 = (1/4, 2) ∧
    calculateOptimalAmountsRaw 1 16 4 3 ≠ specOptimalAmounts 1 16 4 3 := by
  have h1 : ¬ ((4:ℝ) ≤ 1) := by norm_num
  have h2 : ¬ ((4:ℝ) ≥ 16) := by norm_num
  have hraw : calculateOptimalAmountsRaw 1 16 4 3 = (1/2, 1) := by
    simp only [calculateOptimalAmountsRaw, h1, h2, if_false, Real.sqrt_one,
      sqrt_four, sqrt_sixteen]
    norm_num
  have hspec : specOptimalAmounts 1 16 4 3 = (1/4, 2) := by
    simp only [specOptimalAmounts, h1, h2, if_false, Real.sqrt_one,
      sqrt_four, sqrt_sixteen]
    norm_num
  refine ⟨hraw, hspec, ?_⟩
  rw [hraw, hspec]
  intro hco
  rw [Prod.mk.injEq] at hco
  norm_num at hco

/-- C3 amended: `RaydiumService.getOptimalAmounts` (the allocation the
orchestrator actually calls, which has no dust post-processing) computes
exactly the spec's reference formula on every input and every branch; the
deviation is confined to the helper `calculateOptimalAmounts`. -/
theorem getOptimalAmounts_matches_reference (lowerPrice upperPrice currentPrice totalValue : ℝ) :
    getOptimalAmounts lowerPrice upperPrice currentPrice totalValue =
      specOptimalAmounts lowerPrice upperPrice currentPrice totalValue := rfl

/-- C5 counterexample: called with `upperPrice = 90 ≤ lowerPrice = 110`, the
allocation does not fail with `InvalidRange`; it returns normally through the
all-quote branch. -/
theorem getOptimalAmounts_no_invalidRange_failure :
    (90:ℝ) ≤ 110 ∧
    getOptimalAmountsE 110 90 100 1000 = Except.ok (0, 1000) ∧
    getOptimalAmountsE 110 90 100 1000 ≠ Except.error AllocError.invalidRange := by
  refine ⟨by norm_num, ?_, by simp [getOptimalAmountsE]⟩
  have h : (100:ℝ) ≤ 110 := by norm_num
  simp [getOptimalAmountsE, getOptimalAmounts, h]

/-- C5 amended: neither allocation implementation validates the range — both
always return normally (`InvalidRange` is never raised, for inverted ranges or
otherwise); when `upperPrice ≤ lowerPrice` the result falls out of the
boundary branches: all-quote if `currentPrice ≤ lowerPrice`, else all-base. -/
theorem allocation_never_fails (lowerPrice upperPrice currentPrice totalValue : ℝ) :
    (getOptimalAmountsE lowerPrice upperPrice currentPrice totalValue).isOk = true ∧
    (calculateOptimalAmountsE lowerPrice upperPrice currentPrice totalValue).isOk = true ∧
    (upperPrice ≤ lowerPrice →
      getOptimalAmounts lowerPrice upperPrice currentPrice totalValue =
        if currentPrice ≤ lowerPrice then (0, totalValue) else (totalValue / currentPrice, 0)) := by
  refine ⟨rfl, rfl, fun hul => ?_⟩
  by_cases hcl : currentPrice ≤ lowerPrice
  · simp [getOptimalAmounts, hcl]
  · have hcu : currentPrice ≥ upperPrice := by
      push_neg at hcl
      linarith
    simp [getOptimalAmounts, hcl, hcu]

/-- C5 witness: at the inverted range `(110, 90)` with current price 100 the
fallible view succeeds and the result is the all-quote boundary output. -/
theorem allocation_never_fails_witness :
    (getOptimalAmountsE 110 90 100 7).isOk = true ∧
    getOptimalAmounts 110 90 100 7 = (0, 7) := by
  have h := allocation_never_fails 110 90 100 7
  refine ⟨h.1, ?_⟩
  have h3 := h.2.2 (by norm_num)
  rw [h3]
  norm_num

/-- The branch split of `calculateOptimalAmounts` conserves value exactly:
`sol * currentPrice + usdc = totalValue` in each of its three branches. -/
theorem calculateOptimalAmountsRaw_conserves (lowerPrice upperPrice currentPrice totalValue : ℝ)
    (hc : currentPrice ≠ 0) :
    (calculateOptimalAmountsRaw lowerPrice upperPrice currentPrice totalValue).1 * currentPrice +
      (calculateOptimalAmountsRaw lowerPrice upperPrice currentPrice totalValue).2 = totalValue := by
  simp only [calculateOptimalAmountsRaw]
  split_ifs <;> simp <;> field_simp <;> ring

/-- The minimum-threshold post-processing preserves exact value conservation:
each rewrite either moves the whole value to the quote leg (`(0, t)`) or to
the base leg (`(t / c, 0)`). -/
theorem applyMinimumThresholds_conserves (currentPrice totalValue : ℝ)
    (hc : currentPrice ≠ 0) (amounts : ℝ × ℝ)
    (h : amounts.1 * currentPrice + amounts.2 = totalValue) :
    (applyMinimumThresholds currentPrice totalValue amounts).1 * currentPrice +
      (applyMinimumThresholds currentPrice totalValue amounts).2 = totalValue := by
  simp only [applyMinimumThresholds]
  split_ifs <;> simp [h] <;> field_simp

/-- C9: with `0 < lowerPrice < upperPrice`, `0 < currentPrice` and
`0 ≤ totalValue`, both allocation implementations conserve value with exact
equality — `solAmount * currentPrice + usdcAmount = totalValue` — in every
branch, including after the dust-threshold step of `calculateOptimalAmounts`;
this strengthens the spec's "at most totalValue" bound to an equation. -/
theorem allocation_conserves_value (lowerPrice upperPrice currentPrice totalValue : ℝ)
    (hl : 0 < lowerPrice) (hlu : lowerPrice < upperPrice)
    (hc : 0 < currentPrice) (ht : 0 ≤ totalValue) :
    (getOptimalAmounts lowerPrice upperPrice currentPrice totalValue).1 * currentPrice +
      (getOptimalAmounts lowerPrice upperPrice currentPrice totalValue).2 = totalValue ∧
    (calculateOptimalAmounts lowerPrice upperPrice currentPrice totalValue).1 * currentPrice +
      (calculateOptimalAmounts lowerPrice upperPrice currentPrice totalValue).2 = totalValue := by
  have hc' : currentPrice ≠ 0 := ne_of_gt hc
  constructor
  · simp only [getOptimalAmounts]
    split_ifs <;> simp <;> field_simp <;> ring
  · exact applyMinimumThresholds_conserves currentPrice totalValue hc' _
      (calculateOptimalAmountsRaw_conserves lowerPrice upperPrice currentPrice totalValue hc')

/-- C9 witness: both implementations conserve value exactly at
`(90, 110, 100, 1000)`. -/
theorem allocation_conserves_value_witness :
    (getOptimalAmounts 90 110 100 1000).1 * 100 +
      (getOptimalAmounts 90 110 100 1000).2 = 1000 ∧
    (calculateOptimalAmounts 90 110 100 1000).1 * 100 +
      (calculateOptimalAmounts 90 110 100 1000).2 = 1000 :=
  allocation_conserves_value 90 110 100 1000 (by norm_num) (by norm_num)
    (by norm_num) (by norm_num)

/-- Case analysis of the threshold post-processing, shared by several
theorems: the four rule combinations of the two sequential `if`s, and the
fact that the returned quote leg is either zero or at least
`MIN_USDC_AMOUNT`. -/
theorem applyMinimumThresholds_cases (currentPrice totalValue : ℝ) (amounts : ℝ × ℝ) :
    (amounts.1 < MIN_SOL_AMOUNT → ¬ totalValue < MIN_USDC_AMOUNT →
      applyMinimumThresholds currentPrice totalValue amounts = (0, totalValue)) ∧
    (amounts.1 < MIN_SOL_AMOUNT → totalValue < MIN_USDC_AMOUNT →
      applyMinimumThresholds currentPrice totalValue amounts =
        (totalValue / currentPrice, 0)) ∧
    (¬ amounts.1 < MIN_SOL_AMOUNT → amounts.2 < MIN_USDC_AMOUNT →
      applyMinimumThresholds currentPrice totalValue amounts =
        (totalValue / currentPrice, 0)) ∧
    (¬ amounts.1 < MIN_SOL_AMOUNT → ¬ amounts.2 < MIN_USDC_AMOUNT →
      applyMinimumThresholds currentPrice totalValue amounts = amounts) ∧
    ((applyMinimumThresholds currentPrice totalValue amounts).2 = 0 ∨
      MIN_USDC_AMOUNT ≤ (applyMinimumThresholds currentPrice totalValue amounts).2) := by
  refine ⟨fun hsol ht => by simp [applyMinimumThresholds, hsol, ht],
    fun hsol ht => by simp [applyMinimumThresholds, hsol, ht],
    fun hsol ht => by simp [applyMinimumThresholds, hsol, ht],
    fun hsol ht => by simp [applyMinimumThresholds, hsol, ht], ?_⟩
  by_cases h1 : amounts.1 < MIN_SOL_AMOUNT
  · by_cases h2 : totalValue < MIN_USDC_AMOUNT
    · left
      simp [applyMinimumThresholds, h1, h2]
    · right
      have heq : applyMinimumThresholds currentPrice totalValue amounts = (0, totalValue) := by
        simp [applyMinimumThresholds, h1, h2]
      rw [heq]
      push_neg at h2
      simpa using h2
  · by_cases h3 : amounts.2 < MIN_USDC_AMOUNT
    · left
      simp [applyMinimumThresholds, h1, h3]
    · right
      have heq : applyMinimumThresholds currentPrice totalValue amounts = amounts := by
        simp [applyMinimumThresholds, h1, h3]
      rw [heq]
      push_neg at h3
      exact h3

/-- C1 counterexample: at `(90, 110, 110, 1)` the helper
`calculateOptimalAmounts` (the only implementation with dust thresholds)
returns `(1/110, 0)`: a non-zero base leg of `1/110 ≈ 0.0091 <
MIN_SOL_AMOUNT`.  The quote rule reassigned `sol = totalValue/currentPrice`
after the base rule had zeroed it, and that reassigned base leg is never
re-checked against its threshold. -/
theorem calculateOptimalAmounts_dust_leg_violation :
    calculateOptimalAmounts 90 110 110 1 = (1/110, 0) ∧
    (0:ℝ) < 1/110 ∧ (1/110 : ℝ) < MIN_SOL_AMOUNT := by
  have hraw : calculateOptimalAmountsRaw 90 110 110 1 = (1/110, 0) := by
    norm_num [calculateOptimalAmountsRaw]
  have happ := (applyMinimumThresholds_cases 110 1 ((1:ℝ)/110, 0)).2.1
    (by norm_num [MIN_SOL_AMOUNT]) (by norm_num [MIN_USDC_AMOUNT])
  refine ⟨?_, by norm_num, by norm_num [MIN_SOL_AMOUNT]⟩
  rw [calculateOptimalAmounts, hraw, happ]

/-- C1 amended: the two dust rules of `calculateOptimalAmounts` behave as the
spec states — a base leg below `MIN_SOL_AMOUNT` is zeroed with the whole value
moved to quote, and a (post-base-rule) quote leg below `MIN_USDC_AMOUNT` is
zeroed with the whole value moved to base — and consequently the returned
quote leg is never non-zero below its threshold; but because the base leg
written by the quote rule is not re-checked, the returned base leg can still
be non-zero below `MIN_SOL_AMOUNT` (see the counterexample), and the
allocation actually invoked by the orchestrator
(`RaydiumService.getOptimalAmounts`) applies no dust rules at all. -/
theorem applyMinimumThresholds_rules (currentPrice totalValue : ℝ) (amounts : ℝ × ℝ) :
    (amounts.1 < MIN_SOL_AMOUNT → ¬ totalValue < MIN_USDC_AMOUNT →
      applyMinimumThresholds currentPrice totalValue amounts = (0, totalValue)) ∧
    (amounts.1 < MIN_SOL_AMOUNT → totalValue < MIN_USDC_AMOUNT →
      applyMinimumThresholds currentPrice totalValue amounts =
        (totalValue / currentPrice, 0)) ∧
    (¬ amounts.1 < MIN_SOL_AMOUNT → amounts.2 < MIN_USDC_AMOUNT →
      applyMinimumThresholds currentPrice totalValue amounts =
        (totalValue / currentPrice, 0)) ∧
    (¬ amounts.1 < MIN_SOL_AMOUNT → ¬ amounts.2 < MIN_USDC_AMOUNT →
      applyMinimumThresholds currentPrice totalValue amounts = amounts) ∧
    ((applyMinimumThresholds currentPrice totalValue amounts).2 = 0 ∨
      MIN_USDC_AMOUNT ≤ (applyMinimumThresholds currentPrice totalValue amounts).2) :=
  applyMinimumThresholds_cases currentPrice totalValue amounts

/-- C1 witness: the four threshold-rule cases evaluated concretely — base leg
`0.005 < 0.01` is zeroed with the value moved to quote; with the total itself
below the quote threshold the quote rule then moves everything to base; a
quote leg `2 < 5` is zeroed with the value moved to base; legs above both
thresholds pass through unchanged. -/
theorem applyMinimumThresholds_rules_witness :
    applyMinimumThresholds 2 7 (1/200, 7) = (0, 7) ∧
    applyMinimumThresholds 2 1 (1/200, 1) = (1/2, 0) ∧
    applyMinimumThresholds 100 7 (3, 2) = (7/100, 0) ∧
    applyMinimumThresholds 100 7 (3, 6) = (3, 6) := by
  have h1 := (applyMinimumThresholds_rules 2 7 ((1:ℝ)/200, 7)).1
    (by norm_num [MIN_SOL_AMOUNT]) (by norm_num [MIN_USDC_AMOUNT])
  have h2 := (applyMinimumThresholds_rules 2 1 ((1:ℝ)/200, 1)).2.1
    (by norm_num [MIN_SOL_AMOUNT]) (by norm_num [MIN_USDC_AMOUNT])
  have h3 := (applyMinimumThresholds_rules 100 7 ((3:ℝ), 2)).2.2.1
    (by norm_num [MIN_SOL_AMOUNT]) (by norm_num [MIN_USDC_AMOUNT])
  have h4 := (applyMinimumThresholds_rules 100 7 ((3:ℝ), 6)).2.2.2.1
    (by norm_num [MIN_SOL_AMOUNT]) (by norm_num [MIN_USDC_AMOUNT])
  exact ⟨h1, h2, h3, h4⟩

/-- C4 counterexample: with the valid range `(90, 110)` and `currentPrice =
80 ≤ lowerBound`, the final result of `calculateOptimalAmounts` at
`totalValue = 1` is `(1/80, 0)` — a non-zero base amount, violating the
claimed invariant `currentPrice ≤ lowerBound → baseAmount = 0`: the quote
dust rule moved the whole (small) value back into the base leg. -/
theorem calculateOptimalAmounts_boundary_violation :
    (80:ℝ) ≤ 90 ∧ (90:ℝ) < 110 ∧
    calculateOptimalAmounts 90 110 80 1 = (1/80, 0) ∧
    (calculateOptimalAmounts 90 110 80 1).1 ≠ 0 := by
  have hraw : calculateOptimalAmountsRaw 90 110 80 1 = (0, 1) := by
    norm_num [calculateOptimalAmountsRaw]
  have happ := (applyMinimumThresholds_cases 80 1 ((0:ℝ), 1)).2.1
    (by norm_num [MIN_SOL_AMOUNT]) (by norm_num [MIN_USDC_AMOUNT])
  have hfinal : calculateOptimalAmounts 90 110 80 1 = (1/80, 0) := by
    rw [calculateOptimalAmounts, hraw, happ]
  exact ⟨by norm_num, by norm_num, hfinal, by rw [hfinal]; norm_num⟩

/-- C4 amended: the boundary invariant — `currentPrice ≤ lowerBound →
baseAmount = 0` and `currentPrice ≥ upperBound → quoteAmount = 0` — holds
unconditionally for `RaydiumService.getOptimalAmounts`; for the helper
`calculateOptimalAmounts` the base part additionally needs `totalValue ≥
MIN_USDC_AMOUNT` and the quote part `totalValue / currentPrice ≥
MIN_SOL_AMOUNT`, because the dust rules can otherwise move value back into
the leg the branch had zeroed. -/
theorem allocation_boundary_zeroing (lowerPrice upperPrice currentPrice totalValue : ℝ)
    (hlu : lowerPrice < upperPrice) :
    (currentPrice ≤ lowerPrice →
      (getOptimalAmounts lowerPrice upperPrice currentPrice totalValue).1 = 0) ∧
    (currentPrice ≥ upperPrice →
      (getOptimalAmounts lowerPrice upperPrice currentPrice totalValue).2 = 0) ∧
    (currentPrice ≤ lowerPrice → MIN_USDC_AMOUNT ≤ totalValue →
      (calculateOptimalAmounts lowerPrice upperPrice currentPrice totalValue).1 = 0) ∧
    (currentPrice ≥ upperPrice → MIN_SOL_AMOUNT ≤ totalValue / currentPrice →
      (calculateOptimalAmounts lowerPrice upperPrice currentPrice totalValue).2 = 0) := by
  refine ⟨fun hcl => ?_, fun hcu => ?_, fun hcl ht => ?_, fun hcu ht => ?_⟩
  · simp [getOptimalAmounts, hcl]
  · have hcl : ¬ currentPrice ≤ lowerPrice := by linarith
    simp [getOptimalAmounts, hcl, hcu]
  · have hraw : calculateOptimalAmountsRaw lowerPrice upperPrice currentPrice totalValue =
        (0, totalValue) := by
      simp [calculateOptimalAmountsRaw, hcl]
    have happ := (applyMinimumThresholds_cases currentPrice totalValue
      ((0:ℝ), totalValue)).1 (by norm_num [MIN_SOL_AMOUNT]) (not_lt.mpr ht)
    rw [calculateOptimalAmounts, hraw, happ]
  · have hcl : ¬ currentPrice ≤ lowerPrice := by linarith
    have hraw : calculateOptimalAmountsRaw lowerPrice upperPrice currentPrice totalValue =
        (totalValue / currentPrice, 0) := by
      simp [calculateOptimalAmountsRaw, hcl, hcu]
    have happ := (applyMinimumThresholds_cases currentPrice totalValue
      (totalValue / currentPrice, (0:ℝ))).2.2.1
      (by simpa using not_lt.mpr ht) (by norm_num [MIN_USDC_AMOUNT])
    rw [calculateOptimalAmounts, hraw, happ]

/-- C4 witness: at the valid range `(90, 110)` with `totalValue = 1000`, the
base leg is zero at `currentPrice = 80` and the quote leg is zero at
`currentPrice = 120`, for both implementations. -/
theorem allocation_boundary_zeroing_witness :
    (getOptimalAmounts 90 110 80 1000).1 = 0 ∧
    (getOptimalAmounts 90 110 120 1000).2 = 0 ∧
    (calculateOptimalAmounts 90 110 80 1000).1 = 0 ∧
    (calculateOptimalAmounts 90 110 120 1000).2 = 0 := by
  have h1 := allocation_boundary_zeroing 90 110 80 1000 (by norm_num)
  have h2 := allocation_boundary_zeroing 90 110 120 1000 (by norm_num)
  exact ⟨h1.1 (by norm_num), h2.2.1 (by norm_num),
    h1.2.2.1 (by norm_num) (by norm_num [MIN_USDC_AMOUNT]),
    h2.2.2.2 (by norm_num) (by norm_num [MIN_SOL_AMOUNT])⟩

/-! ## Position survey and close loop — `RaydiumService.isPositionInRange`,
`RaydiumService.getPositions` (src/src/services/raydium.ts lines 286-327) and
the close loop of `LiquidityManager.managePositions` (services/liquidity.ts,
src/unnamed/part_002, lines 94-135). -/

/-- The fields of a tracked position used by the close loop. -/
structure PositionInfo (α : Type) where
  positionId : ℕ
  lowerPrice : α
  upperPrice : α
  solAmount : α
  usdcAmount : α

/-- Embedding of `RaydiumService.isPositionInRange`:
`currentPrice >= position.lowerPrice && currentPrice <= position.upperPrice`
(both bounds inclusive).  Prices are any linearly ordered type; the claims
instantiate it at numeric types. -/
def isPositionInRange [LinearOrder α] (position : PositionInfo α) (currentPrice : α) : Bool :=
  decide (currentPrice ≥ position.lowerPrice) && decide (currentPrice ≤ position.upperPrice)

/-- What happened to one position during the close loop. -/
inductive CloseAction (E : Type) where
  | closed (signature : ℕ)
  | closeFailed (error : E)
  | kept

/-- One entry of the close-loop trace. -/
structure CloseEvent (α E : Type) where
  position : PositionInfo α
  action : CloseAction E

/-- The close loop of `managePositions`: for each enumerated position, if it
is out of range, submit a close (`closePosition`, whose outcome per position
is given by the oracle); a thrown close error is caught in the per-position
`try`/`catch` (event `closeFailed`) and the loop continues with the next
position; an in-range position is kept with no close call. -/
def closeOutOfRangePositions [LinearOrder α]
    (closePosition : PositionInfo α → Except E ℕ) (currentPrice : α) :
    List (PositionInfo α) → List (CloseEvent α E)
  | [] => []
  | position :: rest =>
    let event : CloseEvent α E :=
      if isPositionInRange position currentPrice then
        ⟨position, CloseAction.kept⟩
      else
        match closePosition position with
        | Except.ok signature => ⟨position, CloseAction.closed signature⟩
        | Except.error e => ⟨position, CloseAction.closeFailed e⟩
    event :: closeOutOfRangePositions closePosition currentPrice rest

/-- Whether a close submission was issued for this event's position
(successfully or not). -/
def receivedCloseCall (event : CloseEvent α E) : Bool :=
  match event.action with
  | CloseAction.kept => false
  | _ => true

/-- C7: in one cycle, a position receives a close submission if and only if
it is out of range — in any order-preserving sense: the positions that
received a close call are exactly the out-of-range ones — and every position
of the list is processed no matter how the individual closes fail (the trace
covers the whole input list for every outcome oracle, including
always-failing ones): one close failure never blocks the remaining
positions. -/
theorem closeLoop_close_iff_out_of_range [LinearOrder α] (E : Type)
    (closePosition : PositionInfo α → Except E ℕ) (currentPrice : α)
    (positions : List (PositionInfo α)) :
    ((closeOutOfRangePositions closePosition currentPrice positions).filter
        receivedCloseCall).map CloseEvent.position =
      positions.filter (fun position => ! isPositionInRange position currentPrice) ∧
    (closeOutOfRangePositions closePosition currentPrice positions).map
        CloseEvent.position = positions := by
  induction positions with
  | nil => simp [closeOutOfRangePositions]
  | cons p rest ih =>
    by_cases h : isPositionInRange p currentPrice = true
    · simp [closeOutOfRangePositions, h, receivedCloseCall, ih.1, ih.2]
    · cases hc : closePosition p <;>
        simp [closeOutOfRangePositions, h, hc, receivedCloseCall, ih.1, ih.2]

/-! ## Balance gate of the reallocation step —
`LiquidityManager.managePositions` (src/unnamed/part_002, lines 144-217). -/

/-- Outcome of the open-new-position phase of one cycle. -/
inductive ReallocationOutcome (E : Type) where
  | skippedInsufficientFunds
  | opened (solAmount usdcAmount : ℝ) (signature : ℕ)
  | openFailed (solAmount usdcAmount : ℝ) (error : E)

/-- The reallocation step: `availableSol = sol − config.minSolBalance` (the
fee reserve); open only if `availableSol >= 0.1 && usdc >= 10`
(`minSolForPosition` / `minUsdcForPosition` are literals in the source);
otherwise log "insufficient funds" and end the cycle normally.  When opening,
the deployable value takes a 2% haircut (`* 0.98`), is split by
`RaydiumService.getOptimalAmounts`, each leg is clamped to the held balance,
and a failure of `createPosition` is caught (error notification) without
escaping the cycle. -/
noncomputable def reallocationStep (E : Type) (createPosition : ℝ → ℝ → Except E ℕ)
    (currentPrice lowerBound upperBound sol usdc minSolBalance : ℝ) :
    ReallocationOutcome E :=
  let minSolForPosition : ℝ := 0.1
  let minUsdcForPosition : ℝ := 10
  let availableSol := sol - minSolBalance
  if availableSol ≥ minSolForPosition ∧ usdc ≥ minUsdcForPosition then
    let totalValueUSDC := availableSol * currentPrice + usdc
    let amounts := getOptimalAmounts lowerBound upperBound currentPrice (totalValueUSDC * 0.98)
    let finalSolAmount := min amounts.1 availableSol
    let finalUsdcAmount := min amounts.2 usdc
    match createPosition finalSolAmount finalUsdcAmount with
    | Except.ok signature =>
        ReallocationOutcome.opened finalSolAmount finalUsdcAmount signature
    | Except.error e => ReallocationOutcome.openFailed finalSolAmount finalUsdcAmount e
  else
    ReallocationOutcome.skippedInsufficientFunds

/-- Whether the step issued an open-position submission. -/
def issuedOpenCall : ReallocationOutcome E → Bool
  | ReallocationOutcome.skippedInsufficientFunds => false
  | _ => true

/-- C8: the reallocation step issues no open-position call exactly when
`availableSol < 0.1` or `usdc < 10` — in that case the outcome is the normal
`skippedInsufficientFunds` end of cycle, which carries no error — and in
every other case it proceeds to an open-position call (whose own failure is
caught, not raised). -/
theorem reallocation_skip_iff_insufficient (E : Type)
    (createPosition : ℝ → ℝ → Except E ℕ)
    (currentPrice lowerBound upperBound sol usdc minSolBalance : ℝ) :
    (reallocationStep E createPosition currentPrice lowerBound upperBound sol usdc
        minSolBalance = ReallocationOutcome.skippedInsufficientFunds ↔
      (sol - minSolBalance < 0.1 ∨ usdc < 10)) ∧
    (issuedOpenCall (reallocationStep E createPosition currentPrice lowerBound upperBound
        sol usdc minSolBalance) = false ↔
      (sol - minSolBalance < 0.1 ∨ usdc < 10)) := by
  by_cases h : sol - minSolBalance ≥ (0.1:ℝ) ∧ usdc ≥ (10:ℝ)
  · have hno : ¬ (sol - minSolBalance < 0.1 ∨ usdc < 10) := by
      push_neg
      exact ⟨h.1, h.2⟩
    have hresult : issuedOpenCall (reallocationStep E createPosition currentPrice lowerBound
        upperBound sol usdc minSolBalance) = true ∧
        reallocationStep E createPosition currentPrice lowerBound upperBound sol usdc
          minSolBalance ≠ ReallocationOutcome.skippedInsufficientFunds := by
      simp only [reallocationStep, if_pos h]
      cases createPosition
          (min (getOptimalAmounts lowerBound upperBound currentPrice
            (((sol - minSolBalance) * currentPrice + usdc) * 0.98)).1 (sol - minSolBalance))
          (min (getOptimalAmounts lowerBound upperBound currentPrice
            (((sol - minSolBalance) * currentPrice + usdc) * 0.98)).2 usdc) <;>
        simp [issuedOpenCall]
    exact ⟨iff_of_false hresult.2 hno, iff_of_false (by simp [hresult.1]) hno⟩
  · have hyes : sol - minSolBalance < 0.1 ∨ usdc < 10 := by
      push_neg at h
      by_cases h1 : sol - minSolBalance ≥ (0.1:ℝ)
      · exact Or.inr (h h1)
      · exact Or.inl (by push_neg at h1; exact h1)
    simp [reallocationStep, h, issuedOpenCall, hyes]

/-! ## Position listing — `RaydiumService.getPositions`
(src/src/services/raydium.ts lines 286-315).

```ts
public async getPositions(): Promise<any[]> {
  if (!this.poolInfo) { await this.fetchPoolInfo(); }   // outside the try!
  try {
    const positions = await AmmV3.fetchMultiplePoolTickArrays({...});
    const walletPositions = positions.filter(
      position => position.ownerAddress.equals(this.keypair.publicKey));
    return walletPositions;
  } catch (error) { return []; }
}
```

`fetchPoolInfo` itself rethrows its failures (`catch (error) { ...; throw
error; }`), and the call above sits before the `try` block. -/

/-- A raw position as returned by the SDK query, with the owner modelled as a
numeric key. -/
structure RawPosition where
  ownerAddress : ℕ

/-- Embedding of `RaydiumService.getPositions`: `poolInfo` is the service's cached pool
state (`none` when not yet fetched), `fetchPoolInfoOutcome` the outcome of
`fetchPoolInfo()` if it were run, and `queryOutcome` the outcome of the
tick-array query.  The pre-fetch happens outside the `try`, so its error
propagates; a query error is caught and yields the empty list. -/
def getPositions (P E : Type) (poolInfo : Option P) (fetchPoolInfoOutcome : Except E P)
    (queryOutcome : Except E (List RawPosition)) (walletPublicKey : ℕ) :
    Except E (List RawPosition) :=
  match poolInfo, fetchPoolInfoOutcome with
  | none, Except.error e => Except.error e
  | _, _ =>
    match queryOutcome with
    | Except.error _ => Except.ok []
    | Except.ok positions =>
        Except.ok (positions.filter (fun position => position.ownerAddress == walletPublicKey))

/-- C10 counterexample: with no cached pool info and a failing
`fetchPoolInfo`, `getPositions` propagates that error to its caller instead
of returning a list — the pre-fetch sits outside the `try`/`catch`. -/
theorem getPositions_propagates_prefetch_error :
    getPositions Unit ℕ none (Except.error 7) (Except.ok []) 0 = Except.error 7 ∧
    ¬ ∃ l, getPositions Unit ℕ none (Except.error 7) (Except.ok []) 0 = Except.ok l := by
  refine ⟨rfl, ?_⟩
  rintro ⟨l, hl⟩
  simp only [getPositions] at hl
  exact Except.noConfusion hl

/-- C10 amended: whenever the pool info is already cached — or the pre-fetch
succeeds — `getPositions` always returns a list: the empty list if the
positions query fails, the owner-filtered list if it succeeds; the only
escape of an exception is the uncached-pool-info pre-fetch failure, which is
propagated unchanged. -/
theorem getPositions_total_after_prefetch (P E : Type) :
    (∀ (info : P) (fetchPoolInfoOutcome : Except E P) (e : E) (wallet : ℕ),
      getPositions P E (some info) fetchPoolInfoOutcome (Except.error e) wallet =
        Except.ok []) ∧
    (∀ (info : P) (fetchPoolInfoOutcome : Except E P) (positions : List RawPosition)
        (wallet : ℕ),
      getPositions P E (some info) fetchPoolInfoOutcome (Except.ok positions) wallet =
        Except.ok (positions.filter (fun position => position.ownerAddress == wallet))) ∧
    (∀ (fetched : P) (e : E) (wallet : ℕ),
      getPositions P E none (Except.ok fetched) (Except.error e) wallet = Except.ok []) ∧
    (∀ (fetched : P) (positions : List RawPosition) (wallet : ℕ),
      getPositions P E none (Except.ok fetched) (Except.ok positions) wallet =
        Except.ok (positions.filter (fun position => position.ownerAddress == wallet))) ∧
    (∀ (e : E) (queryOutcome : Except E (List RawPosition)) (wallet : ℕ),
      getPositions P E none (Except.error e) queryOutcome wallet = Except.error e) := by
  refine ⟨fun info fetchPoolInfoOutcome e wallet => rfl,
    fun info fetchPoolInfoOutcome positions wallet => rfl,
    fun fetched e wallet => rfl,
    fun fetched positions wallet => rfl,
    fun e queryOutcome wallet => rfl⟩

end LiquidityBot
